import Mathlib

/-!
# Verification of the concrete multi-circuit compilation pipeline

Shallow embedding of the `CircuitDef` / `ProgramCompiler` / `Program` /
`ProgramCircuit` classes from
`src/frontends/concrete-python/concrete/fhe/compilation/program_compiler.py` and
`src/frontends/concrete-python/concrete/fhe/compilation/program.py`,
and of the reference rounding function from
`src/compilers/concrete-compiler/compiler/tests/end_to_end_fixture/end_to_end_round_gen.py`.

External collaborators (the `Tracer`, `fuse`, `Graph.measure_bounds`,
`Graph.update_with_bounds`, `Configuration`, `Server` and `Client` classes)
are not part of the supplied source; they are modelled from the spec at their
interface boundary, as marked on each definition.

Python exceptions are modelled by an error type carrying the identifying
payload of each raise site; Python `int` is `Int` (arbitrary precision, floor
division and Euclidean remainder match Python `//`-rounded `>>` and `&` bit
tests).
-/

namespace Concrete

/-- Python identifiers (parameter names, circuit names, attribute names). -/
abbrev Name := String

/-- The exceptions raised by the embedded code, abstracted to the payload that
identifies each raise site (messages are built from exactly these data in the
Python source). -/
inductive PyError where
  /-- `ValueError` from `CircuitDef.__init__`: encryption statuses of the named
  function parameters are not provided. -/
  | missingStatuses (params : List Name) (func : Name)
  /-- `ValueError` from `CircuitDef.__init__`: encryption statuses of the named
  arguments are provided but they are not parameters of the function. -/
  | extraStatuses (params : List Name) (func : Name)
  /-- `ValueError` from `CircuitDef._evaluate`: input `index` of the inputset is
  not well formed (expected a tuple of `expected` values, got `actual`). -/
  | malformedInput (index : Nat) (expected actual : Nat)
  /-- `RuntimeError` from `CircuitDef._evaluate`: `action` of the function
  without an inputset is not supported. -/
  | noInputset (action : Name) (func : Name)
  /-- `RuntimeError` from `ProgramCompiler.compile`: programs can only be
  compiled with `composable` activated. -/
  | nonComposable
  /-- `AttributeError` from `__getattr__` (no attribute `item`). -/
  | noAttribute (item : Name)
  /-- `KeyError` from `inputsets[name]` in `ProgramCompiler.compile`. -/
  | keyError (item : Name)
  /-- `TypeError` from subscripting `inputsets` when it is `None`. -/
  | noneNotSubscriptable
  /-- `AssertionError` from a failing `assert` statement. -/
  | assertionFailed
  deriving DecidableEq, Repr

/-- An inputset sample: either a single (scalar) value or a tuple of values.
`CircuitDef._evaluate` wraps a non-tuple sample into a 1-tuple before the
arity check. -/
inductive Sample where
  | scalar (v : Int)
  | tup (vs : List Int)
  deriving DecidableEq, Repr

/-- Arity of a sample after the `if not isinstance(sample, tuple)` wrapping in
`CircuitDef._evaluate`. -/
def sampleArity : Sample → Nat
  | .scalar _ => 1
  | .tup vs => vs.length

/-- The values carried by a sample, positionally matched to the parameters. -/
def sampleValues : Sample → List Int
  | .scalar v => [v]
  | .tup vs => vs

/-- Modelled from the spec: a dataflow-graph node (§3 Graph). Nodes are
arena-indexed; edges point to earlier nodes by position; inputs read the
positional circuit arguments, the other kinds are cleartext integer
operations recorded by the Tracer. -/
inductive GraphOp where
  | input (k : Nat)
  | constant (c : Int)
  | add (i j : Nat)
  | sub (i j : Nat)
  | mul (i j : Nat)
  | neg (i : Nat)
  deriving DecidableEq, Repr

/-- Modelled from the spec: cleartext evaluation of one node given the values
of the earlier nodes and the circuit arguments. -/
def GraphOp.evalAt (vals args : List Int) : GraphOp → Int
  | .input k => args.getD k 0
  | .constant c => c
  | .add i j => vals.getD i 0 + vals.getD j 0
  | .sub i j => vals.getD i 0 - vals.getD j 0
  | .mul i j => vals.getD i 0 * vals.getD j 0
  | .neg i => - vals.getD i 0

/-- Modelled from the spec: evaluate every node of an (already fused) graph in
topological (arena) order for one argument tuple, returning per-node values
(§4.3 Bounds Analyzer). -/
def evalOps (ops : List GraphOp) (args : List Int) : List Int :=
  ops.foldl (fun vals op => vals ++ [op.evalAt vals args]) []

/-- Modelled from the spec: a computation `Graph` (§3) — the arena of nodes
plus the per-node assigned bit-widths (`none` before assignment). -/
structure Graph where
  ops : List GraphOp
  widths : List (Option Nat)
  deriving DecidableEq, Repr

/-- Modelled from the spec: the per-node point bounds contributed by a single
sample — each node's observed value as a degenerate `[v, v]` range. -/
def Graph.pointBounds (g : Graph) (s : Sample) : List (Int × Int) :=
  (evalOps g.ops (sampleValues s)).map (fun v => (v, v))

/-- Modelled from the spec: merge two per-node bounds vectors by taking the
running minimum and maximum componentwise (§4.3). -/
def mergeBounds (a b : List (Int × Int)) : List (Int × Int) :=
  List.zipWith (fun p q => (min p.1 q.1, max p.2 q.2)) a b

/-- Modelled from the spec: `Graph.measure_bounds` — evaluate the graph for
every sample of the inputset, recording, for every node, the running minimum
and maximum of all observed outputs (§4.3). -/
def Graph.measureBounds (g : Graph) (inputset : List Sample) : List (Int × Int) :=
  match inputset with
  | [] => []
  | s :: rest => rest.foldl (fun acc t => mergeBounds acc (g.pointBounds t)) (g.pointBounds s)

/-- Fuel-driven binary length of a natural number: the least `w` with
`n < 2 ^ w` (structural recursion so it reduces in the kernel). -/
def bitsAux : Nat → Nat → Nat
  | 0, _ => 0
  | fuel + 1, n => if n = 0 then 0 else bitsAux fuel (n / 2) + 1

/-- Number of bits needed to represent `n`. -/
def bits (n : Nat) : Nat := bitsAux n n

/-- Modelled from the spec: the minimal bit-width (≥ 1) whose signed resp.
unsigned range contains the measured `[lo, hi]` bounds (§4.4, §8). -/
def bitWidthFor (lo hi : Int) : Nat :=
  if lo < 0 then max (bits hi.toNat + 1) (bits ((-lo).toNat - 1) + 1)
  else max 1 (bits hi.toNat)

/-- Modelled from the spec: `Graph.update_with_bounds` — assign to every node
the minimal sufficient bit-width determined by its measured bounds (§4.4).
The node arena is unchanged. -/
def Graph.updateWithBounds (g : Graph) (bounds : List (Int × Int)) : Graph :=
  { g with widths := bounds.map (fun b => some (bitWidthFor b.1 b.2)) }

/-- Modelled from the spec: `Configuration` (§3) — the immutable set of named
compilation options this development needs; only the fields read by the
embedded code are kept. -/
structure Configuration where
  composable : Bool
  fhe_simulation : Bool
  fhe_execution : Bool
  use_insecure_key_cache : Bool
  enable_unsafe_features : Bool
  insecure_key_cache_location : Option Name
  deriving DecidableEq, Repr

/-- The keyword-argument overrides `ProgramCompiler.compile` may apply to a
configuration; only the option relevant to the embedded checks is kept. -/
structure ConfigOverrides where
  composable : Option Bool
  deriving DecidableEq, Repr

/-- Modelled from the spec: `Configuration.fork` — produce a new configuration
with the named overrides applied, leaving the original untouched (§3). -/
def Configuration.fork (c : Configuration) (o : ConfigOverrides) : Configuration :=
  { c with composable := o.composable.getD c.composable }

/-- State of a `CircuitDef` (`program_compiler.py`): the function is
represented by its tracing behaviour (`traceFn`, modelled from the spec:
`Tracer.trace` plus `fuse` produce a graph from the first concrete sample);
`params` are the keys of `parameter_encryption_statuses`, whose length is the
declared parameter count used by the arity check. -/
structure CircuitDefState where
  name : Name
  params : List Name
  isDirect : Bool
  traceFn : Sample → Graph
  traceDirectGraph : Graph
  inputset : List Sample
  graph : Option Graph

/-- Result of `CircuitDef._evaluate`: the post-call state and the exception,
if one was raised. -/
structure EvalResult where
  state : CircuitDefState
  err : Option PyError

/-- The inputset-extension loop of `CircuitDef._evaluate` (lines 164-188):
each sample is appended to the accumulated inputset; on an arity mismatch the
accumulated inputset is truncated back to its length before the call
(`self.inputset = self.inputset[:previous_inputset_length]`) and a
`ValueError` naming the offending index is raised. On error the rolled-back
inputset is returned alongside the exception. -/
def extendLoop (nparams prevLen : Nat) (acc : List Sample) (index : Nat) :
    List Sample → Except (PyError × List Sample) (List Sample)
  | [] => .ok acc
  | s :: rest =>
    let acc2 := acc ++ [s]
    if sampleArity s ≠ nparams then
      .error (.malformedInput index nparams (sampleArity s), acc2.take prevLen)
    else
      extendLoop nparams prevLen acc2 (index + 1) rest

/-- Trace-and-measure tail of `CircuitDef._evaluate`: measure bounds of the
graph over the accumulated inputset and update the graph with them
(`measure_bounds` / `update_with_bounds` are modelled from the spec). -/
def finishEval (cd : CircuitDefState) (g : Graph) : EvalResult :=
  let bounds := g.measureBounds cd.inputset
  ⟨{ cd with graph := some (g.updateWithBounds bounds) }, none⟩

/-- `CircuitDef._evaluate` (lines 139-212): extend the accumulated inputset
(with rollback on a malformed sample), trace the function on the first sample
if no graph exists yet (failing when the inputset is empty), then measure
bounds and update the graph. The auto-rounder/auto-truncator adjustment only
mutates external extension objects and is not part of the state modelled
here; the configuration argument is kept for the call shape. -/
def CircuitDefState.evaluate (cd : CircuitDefState) (action : Name)
    (inputset : Option (List Sample)) (_cfg : Configuration) : EvalResult :=
  if cd.isDirect then
    ⟨{ cd with graph := some cd.traceDirectGraph }, none⟩
  else
    match (match inputset with
           | none => Except.ok cd.inputset
           | some xs => extendLoop cd.params.length cd.inputset.length cd.inputset 0 xs) with
    | .error (e, rolled) => ⟨{ cd with inputset := rolled }, some e⟩
    | .ok newInputset =>
      let cd1 := { cd with inputset := newInputset }
      match cd1.graph with
      | some g => finishEval cd1 g
      | none =>
        match cd1.inputset with
        | [] => ⟨cd1, some (.noInputset action cd1.name)⟩
        | first :: _ => finishEval { cd1 with graph := some (cd1.traceFn first) } (cd1.traceFn first)

/-- Modelled parameter-encryption status (`EncryptionStatus` in
`compiler.py`, an external import here). -/
inductive EncryptionStatus where
  | clear
  | encrypted
  deriving DecidableEq, Repr

/-- A Python function signature: its name and its ordered parameter names
(`inspect.signature(function).parameters`). -/
structure FuncSig where
  name : Name
  params : List Name
  deriving DecidableEq, Repr

/-- The name-matching loop used twice by `CircuitDef.__init__` (lines 55-58
and 75-78): start from `base`, and for each element of `other` that occurs in
`base`, remove it (`list.remove` removes the first occurrence). -/
def removeDeclared (base other : List Name) : List Name :=
  other.foldl (fun acc arg => if arg ∈ base then acc.erase arg else acc) base

/-- `CircuitDef.__init__` (lines 48-105): reject eagerly, with a `ValueError`
naming them, parameters of the function whose encryption status is missing,
then declared statuses that name something that is not a parameter; otherwise
build the initial circuit state (empty inputset, no graph, not direct). -/
def CircuitDef.init (f : FuncSig) (traceFn : Sample → Graph)
    (statuses : List (Name × EncryptionStatus)) : Except PyError CircuitDefState :=
  let declared := statuses.map Prod.fst
  let missing := removeDeclared f.params declared
  if missing ≠ [] then
    .error (.missingStatuses missing f.name)
  else
    let additional := removeDeclared declared f.params
    if additional ≠ [] then
      .error (.extraStatuses additional f.name)
    else
      .ok { name := f.name, params := declared, isDirect := false, traceFn := traceFn,
            traceDirectGraph := ⟨[], []⟩, inputset := [], graph := none }

/-- Modelled from the spec: the external `Server` capability (§6), abstracted
to its `run` operation (arguments, evaluation keys, circuit name) and its
simulation flag. Encrypted values are opaque; they are modelled as `Int`. -/
structure ServerCap where
  runFn : List Int → Nat → Name → List Int
  isSimulated : Bool

/-- Modelled from the spec: the external `Client` capability (§6), abstracted
to `encrypt`/`decrypt` (keyed by circuit name), its evaluation keys, and the
key-cache directory it was built with. -/
structure ClientCap where
  encryptFn : List Int → Name → List Int
  decryptFn : List Int → Name → List Int
  evaluationKeys : Nat
  keysetCacheDir : Option Name

/-- The runtime object of a `Program`: `ExecutionRt` (client + server) or
`SimulationRt` (server only), from `program.py` lines 31-45. -/
inductive Rt where
  | execution (client : ClientCap) (server : ServerCap)
  | simulation (server : ServerCap)

/-- Whether the runtime is an `ExecutionRt` (`isinstance(self.rt, ExecutionRt)`). -/
def Rt.isExecution : Rt → Bool
  | .execution _ _ => true
  | .simulation _ => false

/-- The compiled `Program` object (`program.py` lines 492-537): per-circuit
graphs, the configuration it was built with, and the runtime fixed at
construction. The opaque MLIR module and compilation context are omitted. -/
structure ProgramState where
  graphs : List (Name × Graph)
  configuration : Configuration
  rt : Rt

/-- `Program.__init__` (`program.py` lines 503-537). The external collaborators
`Server.create` and `Client.__init__` are passed in as `serverCreate` /
`clientNew` (modelled from the spec, §6). A missing configuration or one with
neither `fhe_simulation` nor `fhe_execution` fails the opening `assert`; a
simulation configuration builds a `SimulationRt`; otherwise an `ExecutionRt`
is built, with the insecure key-cache directory gated by two further
`assert_that` checks. -/
def Program.init (serverCreate : Bool → ServerCap)
    (clientNew : ServerCap → Option Name → ClientCap)
    (graphs : List (Name × Graph)) (cfg : Option Configuration) :
    Except PyError ProgramState :=
  match cfg with
  | none => .error .assertionFailed
  | some c =>
    if ¬ (c.fhe_simulation || c.fhe_execution) then .error .assertionFailed
    else if c.fhe_simulation then
      .ok ⟨graphs, c, .simulation (serverCreate true)⟩
    else
      let server := serverCreate false
      if c.use_insecure_key_cache && !c.enable_unsafe_features then .error .assertionFailed
      else if c.use_insecure_key_cache && c.insecure_key_cache_location.isNone then
        .error .assertionFailed
      else
        let dir := if c.use_insecure_key_cache then c.insecure_key_cache_location else none
        .ok ⟨graphs, c, .execution (clientNew server dir) server⟩

/-- A `ProgramCircuit` (`program.py` lines 48-61): a view over one named
circuit, holding a reference to the program's runtime and its own graph. -/
structure ProgramCircuitState where
  name : Name
  rt : Rt
  graph : Graph

/-- `ProgramCircuit.simulate` (lines 97-140): `assert isinstance(self.rt,
SimulationRt)`, then export the arguments, run the server, and decrypt the
simulated results (the exporter/decrypter round-trip is modelled inside the
server's `runFn`; simulation passes no evaluation keys). -/
def ProgramCircuitState.simulate (c : ProgramCircuitState) (args : List Int) :
    Except PyError (List Int) :=
  match c.rt with
  | .simulation server => .ok (server.runFn args 0 c.name)
  | .execution _ _ => .error .assertionFailed

/-- `ProgramCircuit.encrypt` (lines 142-158): `assert isinstance(self.rt,
ExecutionRt)`, then delegate to the client keyed by the circuit name. -/
def ProgramCircuitState.encrypt (c : ProgramCircuitState) (args : List Int) :
    Except PyError (List Int) :=
  match c.rt with
  | .execution client _ => .ok (client.encryptFn args c.name)
  | .simulation _ => .error .assertionFailed

/-- `ProgramCircuit.run` (lines 160-178): `assert isinstance(self.rt,
ExecutionRt)`, then run the server with the client's evaluation keys. -/
def ProgramCircuitState.run (c : ProgramCircuitState) (args : List Int) :
    Except PyError (List Int) :=
  match c.rt with
  | .execution client server => .ok (server.runFn args client.evaluationKeys c.name)
  | .simulation _ => .error .assertionFailed

/-- `ProgramCircuit.decrypt` (lines 180-196): `assert isinstance(self.rt,
ExecutionRt)`, then delegate to the client keyed by the circuit name. -/
def ProgramCircuitState.decrypt (c : ProgramCircuitState) (results : List Int) :
    Except PyError (List Int) :=
  match c.rt with
  | .execution client _ => .ok (client.decryptFn results c.name)
  | .simulation _ => .error .assertionFailed

/-- `ProgramCircuit.encrypt_run_decrypt` (lines 198-210):
`return self.decrypt(self.run(self.encrypt(*args)))` — the three calls are
evaluated innermost first and an exception in any of them propagates. -/
def ProgramCircuitState.encrypt_run_decrypt (c : ProgramCircuitState) (args : List Int) :
    Except PyError (List Int) :=
  (c.encrypt args).bind fun e => (c.run e).bind fun r => c.decrypt r

/-- State of a `ProgramCompiler` (`program_compiler.py` lines 394-407): its
`__init__` sets only `self.configuration` (to `Configuration(composable=True)`),
`self.circuits` and `self.compilation_context`; the `default_configuration`
class annotation is never given a value. -/
structure ProgramCompilerState where
  configuration : Configuration
  circuits : List (Name × CircuitDefState)

/-- Result of `ProgramCompiler.compile`: the compiler state after the call
(circuit inputsets and graphs mutate in place), the names of the circuits
whose `_evaluate` completed, the compiled program on success, and the
exception on failure. -/
structure CompileResult where
  compiler : ProgramCompilerState
  evaluated : List Name
  program : Option ProgramState
  err : Option PyError

/-- `inputsets[name]` in the compile loop: `TypeError` when `inputsets` is
`None`, `KeyError` when the circuit name is missing. -/
def lookupInputset (inputsets : Option (List (Name × List Sample))) (n : Name) :
    Except PyError (List Sample) :=
  match inputsets with
  | none => .error .noneNotSubscriptable
  | some m =>
    match m.lookup n with
    | none => .error (.keyError n)
    | some v => .ok v

/-- The per-circuit loop of `ProgramCompiler.compile` (lines 454-460): for
each circuit in order, look up its inputset and run `_evaluate` with
`self.configuration`; the first exception aborts the loop. Returns the
updated circuits, the names evaluated so far, and the exception if any. -/
def compileLoop (cfg : Configuration) (inputsets : Option (List (Name × List Sample))) :
    List (Name × CircuitDefState) →
      List (Name × CircuitDefState) × List Name × Option PyError
  | [] => ([], [], none)
  | (n, cd) :: rest =>
    match lookupInputset inputsets n with
    | .error e => ((n, cd) :: rest, [], some e)
    | .ok xs =>
      let r := cd.evaluate "Compiling" (some xs) cfg
      match r.err with
      | some e => ((n, r.state) :: rest, [], some e)
      | none =>
        let tail := compileLoop cfg inputsets rest
        ((n, r.state) :: tail.1, n :: tail.2.1, tail.2.2)

/-- `ProgramCompiler.compile` (lines 410-501). With no configuration argument
it reads `self.default_configuration`; that name is a bare class annotation,
so normal attribute lookup fails and falls through to `__getattr__` (lines
505-509), which serves only circuit names and raises `AttributeError`
otherwise (if a circuit happens to be named `default_configuration`, the
`CircuitDef` object is returned instead and the first attribute accessed on
it — `fork` with kwargs, `composable` without — raises `AttributeError`).
With a configuration: deepcopy, apply keyword overrides via `fork`, require
`composable`, evaluate every circuit with `self.configuration`, then build
the `Program` from the final graphs and the forked configuration (the
external graph-to-MLIR conversion is opaque and cannot fail in this model). -/
def ProgramCompiler.compile (serverCreate : Bool → ServerCap)
    (clientNew : ServerCap → Option Name → ClientCap)
    (pc : ProgramCompilerState) (inputsets : Option (List (Name × List Sample)))
    (cfg : Option Configuration) (kw : ConfigOverrides) : CompileResult :=
  let resolved : Except PyError Configuration :=
    match cfg with
    | some c => .ok c
    | none =>
      if (pc.circuits.map Prod.fst).contains "default_configuration" then
        .error (.noAttribute (if kw.composable.isSome then "fork" else "composable"))
      else
        .error (.noAttribute "default_configuration")
  match resolved with
  | .error e => ⟨pc, [], none, some e⟩
  | .ok c0 =>
    let c := c0.fork kw
    if ¬ c.composable then ⟨pc, [], none, some .nonComposable⟩
    else
      match compileLoop pc.configuration inputsets pc.circuits with
      | (circuits2, done, some e) => ⟨{ pc with circuits := circuits2 }, done, none, some e⟩
      | (circuits2, done, none) =>
        let pc2 : ProgramCompilerState := { pc with circuits := circuits2 }
        let graphs := circuits2.filterMap (fun nc => nc.2.graph.map (fun g => (nc.1, g)))
        match Program.init serverCreate clientNew graphs (some c) with
        | .error e => ⟨pc2, done, none, some e⟩
        | .ok prog => ⟨pc2, done, some prog, none⟩

/-- The reference rounding function of `end_to_end_round_gen.py` (lines 9-18),
shifted value before the signed sign-fix: test bit `p_delta - 1` of `val`
(`val & carry_mask != 0`; on Python ints this is the two's-complement bit,
i.e. the parity of the floor-shift), add `carry_mask << 1` when it is set,
then shift right by `p_delta` (floor division). -/
def roundShifted (val : Int) (p_start p_end : Nat) : Int :=
  let p_delta := p_start - p_end
  let carry_mask : Int := 2 ^ (p_delta - 1)
  let val2 := if (val / carry_mask) % 2 ≠ 0 then val + carry_mask * 2 else val
  val2 / 2 ^ p_delta

/-- The reference rounding function `round(val, p_start, p_end, signed)` of
`end_to_end_round_gen.py` (lines 9-18): the signed path negates the shifted
output when it reaches `1 << (p_end - 1)`. -/
def roundRef (val : Int) (p_start p_end : Nat) (signed : Bool) : Int :=
  let output := roundShifted val p_start p_end
  if signed then
    if output ≥ 2 ^ (p_end - 1) then -output else output
  else output

/-! ## Lemmas about the reference rounding function -/

/-- The carry step of `round`: adding `2 * carry_mask` when the carry bit of
`val` is set and then flooring by `2 * carry_mask` is exactly half-up
rounding, i.e. flooring `val + carry_mask`. -/
lemma halfup_carry (h : Int) (hh : 0 < h) (v : Int) :
    (if (v / h) % 2 ≠ 0 then v + h * 2 else v) / (h * 2) = (v + h) / (h * 2) := by
  have hm : (0:Int) < h * 2 := by linarith
  have hmne : (h * 2 : Int) ≠ 0 := ne_of_gt hm
  have hhne : h ≠ 0 := ne_of_gt hh
  have hqr : h * 2 * (v / (h * 2)) + v % (h * 2) = v := Int.ediv_add_emod v (h * 2)
  have hr0 : 0 ≤ v % (h * 2) := Int.emod_nonneg v hmne
  have hrm : v % (h * 2) < h * 2 := Int.emod_lt_of_pos v hm
  have hdiv : v / h = v % (h * 2) / h + 2 * (v / (h * 2)) := by
    have hv : v = v % (h * 2) + h * (2 * (v / (h * 2))) := by linear_combination -hqr
    calc v / h = (v % (h * 2) + h * (2 * (v / (h * 2)))) / h := by rw [← hv]
      _ = v % (h * 2) / h + 2 * (v / (h * 2)) := Int.add_mul_ediv_left _ _ hhne
  have hbit : (v / h) % 2 = v % (h * 2) / h % 2 := by
    rw [hdiv, Int.add_mul_emod_self_left]
  have hrh0 : 0 ≤ v % (h * 2) / h := Int.ediv_nonneg hr0 (le_of_lt hh)
  have hrh2 : v % (h * 2) / h < 2 := (Int.ediv_lt_iff_lt_mul hh).mpr (by linarith)
  rcases le_or_lt h (v % (h * 2)) with hcase | hcase
  · have h1 : 1 ≤ v % (h * 2) / h := (Int.le_ediv_iff_mul_le hh).mpr (by linarith)
    have hrh : v % (h * 2) / h = 1 := by omega
    have hcond : (v / h) % 2 ≠ 0 := by rw [hbit, hrh]; decide
    rw [if_pos hcond]
    have l1 : (v + h * 2) / (h * 2) = v / (h * 2) + 1 := by
      have e : v + h * 2 = v + h * 2 * 1 := by ring
      rw [e, Int.add_mul_ediv_left _ _ hmne]
    have r1 : (v + h) / (h * 2) = v / (h * 2) + 1 := by
      have e : v + h = (v % (h * 2) + h) + h * 2 * (v / (h * 2)) := by linear_combination -hqr
      rw [e, Int.add_mul_ediv_left _ _ hmne]
      have e1 : (v % (h * 2) + h) / (h * 2) = 1 := by
        have a1 : 1 ≤ (v % (h * 2) + h) / (h * 2) :=
          (Int.le_ediv_iff_mul_le hm).mpr (by linarith)
        have a2 : (v % (h * 2) + h) / (h * 2) < 2 :=
          (Int.ediv_lt_iff_lt_mul hm).mpr (by linarith)
        omega
      rw [e1]; ring
    rw [l1, r1]
  · have hrh : v % (h * 2) / h = 0 := Int.ediv_eq_zero_of_lt hr0 hcase
    have hcond : ¬ ((v / h) % 2 ≠ 0) := by rw [hbit, hrh]; decide
    rw [if_neg hcond]
    have r1 : (v + h) / (h * 2) = v / (h * 2) := by
      have e : v + h = (v % (h * 2) + h) + h * 2 * (v / (h * 2)) := by linear_combination -hqr
      rw [e, Int.add_mul_ediv_left _ _ hmne]
      have e1 : (v % (h * 2) + h) / (h * 2) = 0 :=
        Int.ediv_eq_zero_of_lt (by linarith) (by linarith)
      rw [e1]; ring
    rw [r1]

/-- The shifted output of `round` is exactly half-up rounding:
`floor((val + 2^(p_delta - 1)) / 2^p_delta)`. -/
lemma roundShifted_eq_halfup (ps pe : Nat) (hpe : pe < ps) (val : Int) :
    roundShifted val ps pe = (val + 2 ^ (ps - pe - 1)) / 2 ^ (ps - pe) := by
  obtain ⟨k, hk⟩ : ∃ k, ps - pe = k + 1 := ⟨ps - pe - 1, by omega⟩
  have hh : (0:Int) < 2 ^ k := pow_pos (by norm_num) _
  simp only [roundShifted]
  rw [hk, Nat.add_sub_cancel, pow_succ]
  exact halfup_carry _ hh val

/-- The shifted output of `round` on a non-negative value is the plain right
shift, incremented by exactly one when bit `p_delta - 1` of `val` is set. -/
lemma roundShifted_incr (ps pe : Nat) (hpe : pe < ps) (val : Int) (h0 : 0 ≤ val) :
    roundShifted val ps pe =
      val / 2 ^ (ps - pe) + (if val.toNat.testBit (ps - pe - 1) then 1 else 0) := by
  obtain ⟨k, hk⟩ : ∃ k, ps - pe = k + 1 := ⟨ps - pe - 1, by omega⟩
  obtain ⟨m, rfl⟩ : ∃ m : Nat, val = (m : Int) := ⟨val.toNat, (Int.toNat_of_nonneg h0).symm⟩
  have htn : ((m : Int)).toNat = m := by simp
  have hmain : (m : Int) / 2 ^ k % 2 = ((m / 2 ^ k % 2 : Nat) : Int) := by norm_cast
  have hbridge : (((m : Int) / 2 ^ k) % 2 ≠ 0) ↔ ((m : Int)).toNat.testBit k = true := by
    rw [htn, Nat.testBit_to_div_mod, decide_eq_true_eq, hmain]
    have hlt : m / 2 ^ k % 2 < 2 := Nat.mod_lt _ (by norm_num)
    omega
  simp only [roundShifted]
  rw [hk, Nat.add_sub_cancel]
  by_cases hbit : ((m : Int)).toNat.testBit k = true
  · rw [if_pos (hbridge.mpr hbit), if_pos hbit]
    have e : (m : Int) + 2 ^ k * 2 = (m : Int) + 2 ^ (k + 1) * 1 := by rw [pow_succ]; ring
    rw [e, Int.add_mul_ediv_left _ _ (by positivity)]
  · rw [if_neg (fun hc => hbit (hbridge.mp hc)), if_neg hbit]
    ring

/-- C6: For all bit-widths `p_start > p_end` and every non-negative `val`
representable in `p_start` bits, the unsigned reference rounding equals the
half-up-carry rule `floor((val + 2^(p_start-p_end-1)) / 2^(p_start-p_end))`,
equivalently the right-shifted value incremented by exactly one when bit
`p_start-p_end-1` of `val` is set; and on the signed path the result is the
arithmetic negation of the shifted output exactly when that output is at
least `2^(p_end-1)`. -/
theorem round_half_up_carry (ps pe : Nat) (val : Int) (hpe : pe < ps)
    (h0 : 0 ≤ val) (_h1 : val < 2 ^ ps) :
    roundRef val ps pe false = (val + 2 ^ (ps - pe - 1)) / 2 ^ (ps - pe) ∧
    roundRef val ps pe false =
      val / 2 ^ (ps - pe) + (if val.toNat.testBit (ps - pe - 1) then 1 else 0) ∧
    (∀ v : Int, 2 ^ (pe - 1) ≤ roundShifted v ps pe →
      roundRef v ps pe true = -(roundShifted v ps pe)) ∧
    (∀ v : Int, roundShifted v ps pe < 2 ^ (pe - 1) →
      roundRef v ps pe true = roundShifted v ps pe) := by
  have hfalse : ∀ w : Int, roundRef w ps pe false = roundShifted w ps pe := fun w => rfl
  have htrue : ∀ w : Int, roundRef w ps pe true =
      (if 2 ^ (pe - 1) ≤ roundShifted w ps pe then -(roundShifted w ps pe)
       else roundShifted w ps pe) := fun w => rfl
  refine ⟨?_, ?_, ?_, ?_⟩
  · rw [hfalse]; exact roundShifted_eq_halfup ps pe hpe val
  · rw [hfalse]; exact roundShifted_incr ps pe hpe val h0
  · intro v hv
    rw [htrue, if_pos hv]
  · intro v hv
    rw [htrue, if_neg (not_le.mpr hv)]

/-- Witness for C6 at `p_start = 5`, `p_end = 3`, `val = 13`. -/
theorem round_half_up_carry_witness :
    (3 < 5 ∧ (0:Int) ≤ 13 ∧ (13:Int) < 2 ^ 5) ∧
    (roundRef 13 5 3 false = ((13:Int) + 2 ^ (5 - 3 - 1)) / 2 ^ (5 - 3) ∧
      roundRef 13 5 3 false =
        (13:Int) / 2 ^ (5 - 3) + (if (13:Int).toNat.testBit (5 - 3 - 1) then 1 else 0) ∧
      (∀ v : Int, 2 ^ (3 - 1) ≤ roundShifted v 5 3 →
        roundRef v 5 3 true = -(roundShifted v 5 3)) ∧
      (∀ v : Int, roundShifted v 5 3 < 2 ^ (3 - 1) →
        roundRef v 5 3 true = roundShifted v 5 3)) :=
  ⟨by refine ⟨by decide, by decide, by decide⟩,
   round_half_up_carry 5 3 13 (by decide) (by decide) (by decide)⟩

/-! ## Mode gating of ProgramCircuit operations (C4, C8) -/

/-- A concrete server-capability factory for witnesses (echoes its arguments;
records the simulation flag). -/
def sampleServerCreate : Bool → ServerCap :=
  fun b => ⟨fun args _ _ => args.map (fun v => v + 1), b⟩

/-- A concrete client factory for witnesses. -/
def sampleClientNew : ServerCap → Option Name → ClientCap :=
  fun _ dir => ⟨fun a _ => a.map (fun v => v + 100), fun a _ => a.map (fun v => v - 100), 7, dir⟩

/-- A concrete execution-mode circuit for witnesses. -/
def execCircuit : ProgramCircuitState :=
  ⟨"inc", .execution (sampleClientNew (sampleServerCreate false) none) (sampleServerCreate false),
   ⟨[], []⟩⟩

/-- A concrete simulation-mode circuit for witnesses. -/
def simCircuit : ProgramCircuitState :=
  ⟨"inc", .simulation (sampleServerCreate true), ⟨[], []⟩⟩

/-- C4: `simulate` fails with the mode-mismatch (assertion) error whenever the
active runtime is execution mode — it never runs; symmetrically `encrypt`,
`run` and `decrypt` fail with the mode-mismatch error whenever the active
runtime is simulation mode. -/
theorem mode_mismatch_gating (c : ProgramCircuitState) (args results : List Int) :
    ((∃ client server, c.rt = Rt.execution client server) →
      c.simulate args = Except.error PyError.assertionFailed) ∧
    ((∃ server, c.rt = Rt.simulation server) →
      c.encrypt args = Except.error PyError.assertionFailed ∧
      c.run args = Except.error PyError.assertionFailed ∧
      c.decrypt results = Except.error PyError.assertionFailed) := by
  constructor
  · rintro ⟨client, server, h⟩
    simp [ProgramCircuitState.simulate, h]
  · rintro ⟨server, h⟩
    refine ⟨?_, ?_, ?_⟩ <;>
      simp [ProgramCircuitState.encrypt, ProgramCircuitState.run,
            ProgramCircuitState.decrypt, h]

/-- Witness for C4 on the concrete execution-mode and simulation-mode
circuits. -/
theorem mode_mismatch_gating_witness :
    (∃ client server, execCircuit.rt = Rt.execution client server) ∧
    execCircuit.simulate [5] = Except.error PyError.assertionFailed ∧
    (∃ server, simCircuit.rt = Rt.simulation server) ∧
    simCircuit.encrypt [5] = Except.error PyError.assertionFailed ∧
    simCircuit.run [5] = Except.error PyError.assertionFailed ∧
    simCircuit.decrypt [6] = Except.error PyError.assertionFailed :=
  ⟨⟨_, _, rfl⟩,
   (mode_mismatch_gating execCircuit [5] [6]).1 ⟨_, _, rfl⟩,
   ⟨_, rfl⟩,
   ((mode_mismatch_gating simCircuit [5] [6]).2 ⟨_, rfl⟩).1,
   ((mode_mismatch_gating simCircuit [5] [6]).2 ⟨_, rfl⟩).2.1,
   ((mode_mismatch_gating simCircuit [5] [6]).2 ⟨_, rfl⟩).2.2⟩

/-- C8: `encrypt_run_decrypt` is exactly the composition of `encrypt`, then
`run`, then `decrypt`, with no other state change in between; in execution
mode it returns precisely the manually composed client/server calls. -/
theorem encrypt_run_decrypt_composes (c : ProgramCircuitState) (args : List Int) :
    c.encrypt_run_decrypt args =
      ((c.encrypt args).bind fun e => (c.run e).bind fun r => c.decrypt r) ∧
    (∀ client server, c.rt = Rt.execution client server →
      c.encrypt_run_decrypt args =
        Except.ok (client.decryptFn
          (server.runFn (client.encryptFn args c.name) client.evaluationKeys c.name)
          c.name)) := by
  refine ⟨rfl, ?_⟩
  intro client server h
  simp [ProgramCircuitState.encrypt_run_decrypt, ProgramCircuitState.encrypt,
        ProgramCircuitState.run, ProgramCircuitState.decrypt, h, Except.bind]

/-- Witness for C8 on the concrete execution-mode circuit. -/
theorem encrypt_run_decrypt_composes_witness :
    execCircuit.rt =
      Rt.execution (sampleClientNew (sampleServerCreate false) none) (sampleServerCreate false) ∧
    execCircuit.encrypt_run_decrypt [3] = Except.ok [4] :=
  ⟨rfl, by
    have h := (encrypt_run_decrypt_composes execCircuit [3]).2
      (sampleClientNew (sampleServerCreate false) none) (sampleServerCreate false) rfl
    simpa using h⟩

/-! ## Program construction and runtime mode (C1) -/

/-- A configuration enabling BOTH simulation and execution modes. -/
def bothModesConfig : Configuration := ⟨true, true, true, false, false, none⟩

/-- A configuration enabling NEITHER simulation nor execution mode. -/
def neitherConfig : Configuration := ⟨true, false, false, false, false, none⟩

/-- A configuration enabling only execution mode. -/
def execOnlyConfig : Configuration := ⟨true, false, true, false, false, none⟩

/-- The program built from `execOnlyConfig`. -/
def execOnlyProgram : ProgramState :=
  ⟨[], execOnlyConfig,
   .execution (sampleClientNew (sampleServerCreate false) none) (sampleServerCreate false)⟩

/-- C1 counterexample: constructing a `Program` with BOTH `fhe_simulation`
and `fhe_execution` enabled does not fail — the `assert` only requires at
least one flag, and the construction succeeds in simulation mode. -/
theorem program_init_both_modes_succeeds :
    Program.init sampleServerCreate sampleClientNew [] (some bothModesConfig) =
      Except.ok ⟨[], bothModesConfig, .simulation (sampleServerCreate true)⟩ := rfl

/-- C1 (amended): Program construction requires at least one of
simulation-mode or execution-mode enabled in the configuration; constructing
with no configuration or with neither mode enabled fails with the
configuration (assertion) error. When both are enabled, simulation takes
precedence without error: for any successfully constructed program the active
runtime mode is fixed at construction as a function of the configuration —
simulation iff `fhe_simulation` is set, execution otherwise. -/
theorem program_init_mode_amended (sc : Bool → ServerCap)
    (cn : ServerCap → Option Name → ClientCap)
    (graphs : List (Name × Graph)) (cfg : Option Configuration) :
    (Program.init sc cn graphs none = Except.error PyError.assertionFailed) ∧
    (∀ c, cfg = some c → c.fhe_simulation = false → c.fhe_execution = false →
      Program.init sc cn graphs cfg = Except.error PyError.assertionFailed) ∧
    (∀ c p, cfg = some c → Program.init sc cn graphs cfg = Except.ok p →
      (c.fhe_simulation = true ∨ c.fhe_execution = true) ∧
      p.rt.isExecution = !c.fhe_simulation ∧
      p.configuration = c ∧ p.graphs = graphs) := by
  refine ⟨rfl, ?_, ?_⟩
  · rintro c rfl h1 h2
    simp [Program.init, h1, h2]
  · rintro c p rfl hok
    cases hsim : c.fhe_simulation with
    | true =>
      have e : Program.init sc cn graphs (some c) =
          Except.ok ⟨graphs, c, .simulation (sc true)⟩ := by
        simp [Program.init, hsim]
      rw [e] at hok
      cases hok
      exact ⟨Or.inl rfl, by simp [Rt.isExecution, hsim], rfl, rfl⟩
    | false =>
      cases hexec : c.fhe_execution with
      | false =>
        have e : Program.init sc cn graphs (some c) =
            Except.error PyError.assertionFailed := by
          simp [Program.init, hsim, hexec]
        rw [e] at hok
        cases hok
      | true =>
        cases hc1 : c.use_insecure_key_cache && !c.enable_unsafe_features with
        | true =>
          have e : Program.init sc cn graphs (some c) =
              Except.error PyError.assertionFailed := by
            simp [Program.init, hsim, hexec, hc1]
          rw [e] at hok
          cases hok
        | false =>
          cases hc2 : c.use_insecure_key_cache && c.insecure_key_cache_location.isNone with
          | true =>
            have e : Program.init sc cn graphs (some c) =
                Except.error PyError.assertionFailed := by
              simp [Program.init, hsim, hexec, hc1, hc2]
            rw [e] at hok
            cases hok
          | false =>
            have e : Program.init sc cn graphs (some c) =
                Except.ok ⟨graphs, c,
                  .execution (cn (sc false)
                    (if c.use_insecure_key_cache then c.insecure_key_cache_location else none))
                    (sc false)⟩ := by
              simp [Program.init, hsim, hexec, hc1, hc2]
            rw [e] at hok
            cases hok
            exact ⟨Or.inr rfl, by simp [Rt.isExecution, hsim], rfl, rfl⟩

/-- Witness for C1 (amended) at the concrete neither-mode and execution-only
configurations. -/
theorem program_init_mode_amended_witness :
    Program.init sampleServerCreate sampleClientNew [] (some neitherConfig) =
      Except.error PyError.assertionFailed ∧
    ((execOnlyConfig.fhe_simulation = true ∨ execOnlyConfig.fhe_execution = true) ∧
      execOnlyProgram.rt.isExecution = !execOnlyConfig.fhe_simulation ∧
      execOnlyProgram.configuration = execOnlyConfig ∧
      execOnlyProgram.graphs = ([] : List (Name × Graph))) :=
  ⟨(program_init_mode_amended sampleServerCreate sampleClientNew [] (some neitherConfig)).2.1
      neitherConfig rfl rfl rfl,
   (program_init_mode_amended sampleServerCreate sampleClientNew [] (some execOnlyConfig)).2.2
      execOnlyConfig execOnlyProgram rfl rfl⟩

/-! ## ProgramCompiler.compile preconditions (C5, C10) -/

/-- C5: if the effective configuration (the provided configuration after
applying keyword-argument overrides) has `composable` false, `compile` fails
with the composability error before any circuit is evaluated and with the
compiler state untouched; and whenever `compile` does not fail with that
error — in particular, whenever any circuit gets evaluated or a program is
produced — the effective configuration has `composable` true. -/
theorem compile_requires_composable (sc : Bool → ServerCap)
    (cn : ServerCap → Option Name → ClientCap)
    (pc : ProgramCompilerState) (inputsets : Option (List (Name × List Sample)))
    (c : Configuration) (kw : ConfigOverrides) :
    ((c.fork kw).composable = false →
      ProgramCompiler.compile sc cn pc inputsets (some c) kw =
        ⟨pc, [], none, some PyError.nonComposable⟩) ∧
    (∀ r, ProgramCompiler.compile sc cn pc inputsets (some c) kw = r →
      r.err ≠ some PyError.nonComposable → (c.fork kw).composable = true) := by
  constructor
  · intro h
    simp [ProgramCompiler.compile, h]
  · rintro r rfl hne
    cases hcomp : (c.fork kw).composable with
    | true => rfl
    | false =>
      exact absurd (by simp [ProgramCompiler.compile, hcomp]) hne

/-- A non-composable configuration for the C5 witness. -/
def nonComposableConfig : Configuration := ⟨false, false, true, false, false, none⟩

/-- A concrete compiler with no circuits, for witnesses. -/
def emptyCompiler : ProgramCompilerState := ⟨⟨true, false, true, false, false, none⟩, []⟩

/-- Witness for C5: compiling with a configuration whose `composable` is
false fails with the composability error, evaluates no circuit, and leaves
the compiler untouched. -/
theorem compile_requires_composable_witness :
    (nonComposableConfig.fork ⟨none⟩).composable = false ∧
    ProgramCompiler.compile sampleServerCreate sampleClientNew emptyCompiler none
        (some nonComposableConfig) ⟨none⟩ =
      ⟨emptyCompiler, [], none, some PyError.nonComposable⟩ :=
  ⟨rfl,
   (compile_requires_composable sampleServerCreate sampleClientNew emptyCompiler none
      nonComposableConfig ⟨none⟩).1 rfl⟩

/-- C10: calling `compile` without a configuration falls back to
`self.default_configuration`; that name is a bare class annotation which
`__init__` never initialises (it only sets `self.configuration`), so the
lookup is routed to `__getattr__`, which raises `AttributeError` for any name
that is not a circuit name — before any circuit is evaluated and with the
compiler state untouched. -/
theorem compile_none_configuration_attribute_error (sc : Bool → ServerCap)
    (cn : ServerCap → Option Name → ClientCap)
    (pc : ProgramCompilerState) (inputsets : Option (List (Name × List Sample)))
    (kw : ConfigOverrides)
    (h : "default_configuration" ∉ pc.circuits.map Prod.fst) :
    ProgramCompiler.compile sc cn pc inputsets none kw =
      ⟨pc, [], none, some (PyError.noAttribute "default_configuration")⟩ := by
  have hc : (pc.circuits.map Prod.fst).contains "default_configuration" = false := by
    simpa using h
  simp only [ProgramCompiler.compile]
  rw [hc]
  simp

/-- Witness for C10 on a concrete compiler whose only circuit is named
`"inc"`. -/
theorem compile_none_configuration_attribute_error_witness :
    "default_configuration" ∉ (emptyCompiler.circuits.map Prod.fst) ∧
    ProgramCompiler.compile sampleServerCreate sampleClientNew emptyCompiler none none ⟨none⟩ =
      ⟨emptyCompiler, [], none, some (PyError.noAttribute "default_configuration")⟩ :=
  ⟨by decide,
   compile_none_configuration_attribute_error sampleServerCreate sampleClientNew emptyCompiler
      none ⟨none⟩ (by decide)⟩

/-! ## Inputset extension: rollback and empty-inputset error (C2, C3) -/

/-- If every sample of `xs` has the declared arity, the extension loop
appends all of them to the accumulated inputset. -/
lemma extendLoop_ok (n p : Nat) (xs : List Sample) :
    ∀ (acc : List Sample) (k : Nat), (∀ s ∈ xs, sampleArity s = n) →
      extendLoop n p acc k xs = .ok (acc ++ xs) := by
  induction xs with
  | nil => intro acc k _; simp [extendLoop]
  | cons s rest ih =>
    intro acc k h
    have hs : sampleArity s = n := h s (by simp)
    simp only [extendLoop]
    rw [if_neg (by simp [hs])]
    rw [ih (acc ++ [s]) (k + 1) (fun t ht => h t (by simp [ht]))]
    simp

/-- If the first sample of the wrong arity sits at position `i`, the
extension loop fails with the malformed-input error at running index `k + i`
and hands back the accumulated inputset truncated to its pre-call length. -/
lemma extendLoop_firstBad (n p : Nat) (xs : List Sample) :
    ∀ (acc : List Sample) (k i : Nat) (hp : p ≤ acc.length) (hi : i < xs.length),
      sampleArity (xs.get ⟨i, hi⟩) ≠ n →
      (∀ s ∈ xs.take i, sampleArity s = n) →
      extendLoop n p acc k xs =
        .error (.malformedInput (k + i) n (sampleArity (xs.get ⟨i, hi⟩)), acc.take p) := by
  induction xs with
  | nil => intro acc k i _ hi; exact absurd hi (by simp)
  | cons s rest ih =>
    intro acc k i hp hi hbad hgood
    cases i with
    | zero =>
      have hbad0 : sampleArity s ≠ n := hbad
      simp only [extendLoop]
      rw [if_pos hbad0, List.take_append_of_le_length hp]
      rfl
    | succ j =>
      have hs : sampleArity s = n := hgood s (by simp [List.take_succ_cons])
      simp only [extendLoop]
      rw [if_neg (by simp [hs])]
      have hlen : p ≤ (acc ++ [s]).length := by
        simp only [List.length_append, List.length_cons, List.length_nil]
        omega
      rw [show k + (j + 1) = (k + 1) + j from by omega]
      rw [show acc.take p = (acc ++ [s]).take p from
        (List.take_append_of_le_length hp).symm]
      exact ih (acc ++ [s]) (k + 1) j hlen (Nat.succ_lt_succ_iff.mp hi) hbad
        (fun t ht => hgood t (by simp [List.take_succ_cons, ht]))

/-- C2: if some sample of the passed inputset has the wrong arity, the
evaluation fails with the malformed-inputset error naming the first offending
sample index, and the accumulated inputset is rolled back to exactly its
value before the call. -/
theorem malformed_inputset_rolls_back (cd : CircuitDefState) (xs : List Sample)
    (action : Name) (cfg : Configuration) (i : Nat)
    (hd : cd.isDirect = false) (hi : i < xs.length)
    (hbad : sampleArity (xs.get ⟨i, hi⟩) ≠ cd.params.length)
    (hgood : ∀ s ∈ xs.take i, sampleArity s = cd.params.length) :
    (cd.evaluate action (some xs) cfg).err =
      some (PyError.malformedInput i cd.params.length (sampleArity (xs.get ⟨i, hi⟩))) ∧
    (cd.evaluate action (some xs) cfg).state.inputset = cd.inputset := by
  have hext := extendLoop_firstBad cd.params.length cd.inputset.length xs cd.inputset 0 i
      (le_refl _) hi hbad hgood
  rw [Nat.zero_add] at hext
  simp only [CircuitDefState.evaluate, hd]
  rw [hext]
  simp [List.take_length]

/-- A fixed configuration for the evaluation witnesses. -/
def defaultConfig : Configuration := ⟨true, false, true, false, false, none⟩

/-- A concrete two-parameter circuit definition for witnesses. -/
def addCircuit : CircuitDefState :=
  ⟨"add", ["x", "y"], false,
   fun _ => ⟨[.input 0, .input 1, .add 0 1], [none, none, none]⟩, ⟨[], []⟩, [], none⟩

/-- Witness for C2: appending `[(1, 2), 3]` to the two-parameter circuit
fails on sample index 1 (a single value where a pair is expected) and leaves
the accumulated inputset unchanged. -/
theorem malformed_inputset_rolls_back_witness :
    (addCircuit.isDirect = false ∧
      1 < [Sample.tup [1, 2], Sample.scalar 3].length ∧
      sampleArity ([Sample.tup [1, 2], Sample.scalar 3].get ⟨1, by decide⟩) ≠
        addCircuit.params.length ∧
      (∀ s ∈ [Sample.tup [1, 2], Sample.scalar 3].take 1,
        sampleArity s = addCircuit.params.length)) ∧
    ((addCircuit.evaluate "Compiling" (some [Sample.tup [1, 2], Sample.scalar 3])
        defaultConfig).err =
      some (PyError.malformedInput 1 addCircuit.params.length 1) ∧
      (addCircuit.evaluate "Compiling" (some [Sample.tup [1, 2], Sample.scalar 3])
        defaultConfig).state.inputset = addCircuit.inputset) :=
  ⟨⟨rfl, by decide, by decide, by decide⟩,
   malformed_inputset_rolls_back addCircuit [Sample.tup [1, 2], Sample.scalar 3]
     "Compiling" defaultConfig 1 rfl (by decide) (by decide) (by decide)⟩

/-- C3: evaluating a circuit that has no graph yet with an accumulated
inputset of zero samples (and an empty or absent passed inputset) fails with
the explicit "action without an inputset is not supported" error, and no
graph is produced. -/
theorem evaluate_empty_inputset_fails (cd : CircuitDefState) (action : Name)
    (cfg : Configuration) (xs : Option (List Sample))
    (hd : cd.isDirect = false) (hg : cd.graph = none) (hin : cd.inputset = [])
    (hxs : xs = none ∨ xs = some []) :
    (cd.evaluate action xs cfg).err = some (PyError.noInputset action cd.name) ∧
    (cd.evaluate action xs cfg).state.graph = none := by
  rcases hxs with rfl | rfl
  · simp [CircuitDefState.evaluate, hd, hg, hin]
  · simp [CircuitDefState.evaluate, hd, hg, hin, extendLoop]

/-- A concrete one-parameter circuit definition for witnesses. -/
def squareCircuit : CircuitDefState :=
  ⟨"square", ["x"], false,
   fun _ => ⟨[.input 0, .mul 0 0], [none, none]⟩, ⟨[], []⟩, [], none⟩

/-- Witness for C3: compiling the fresh one-parameter circuit with an empty
inputset fails with the no-inputset error. -/
theorem evaluate_empty_inputset_fails_witness :
    (squareCircuit.isDirect = false ∧ squareCircuit.graph = none ∧
      squareCircuit.inputset = [] ∧
      ((some ([] : List Sample)) = none ∨ (some ([] : List Sample)) = some [])) ∧
    ((squareCircuit.evaluate "Compiling" (some []) defaultConfig).err =
        some (PyError.noInputset "Compiling" squareCircuit.name) ∧
      (squareCircuit.evaluate "Compiling" (some []) defaultConfig).state.graph = none) :=
  ⟨⟨rfl, rfl, rfl, Or.inr rfl⟩,
   evaluate_empty_inputset_fails squareCircuit "Compiling" defaultConfig (some [])
     rfl rfl rfl (Or.inr rfl)⟩

/-! ## Eager signature matching at CircuitDef construction (C7) -/

/-- On a duplicate-free accumulator contained in `base`, the removal loop of
`CircuitDef.__init__` keeps exactly the accumulator elements that do not
occur in `other`. -/
lemma removeDeclared_go (base : List Name) (other : List Name) :
    ∀ (acc : List Name), acc.Nodup → (∀ x ∈ acc, x ∈ base) →
      other.foldl (fun acc arg => if arg ∈ base then acc.erase arg else acc) acc =
        acc.filter (fun a => !other.contains a) := by
  induction other with
  | nil =>
    intro acc _ _
    simp
  | cons d ds ih =>
    intro acc hnd hsub
    simp only [List.foldl_cons]
    by_cases hd : d ∈ base
    · rw [if_pos hd]
      rw [ih (acc.erase d) (hnd.erase d) (fun x hx => hsub x (List.mem_of_mem_erase hx))]
      rw [List.Nodup.erase_eq_filter hnd d]
      rw [List.filter_filter]
      apply List.filter_congr
      intro x _
      by_cases hxd : x = d <;> simp [hxd]
    · rw [if_neg hd]
      rw [ih acc hnd hsub]
      apply List.filter_congr
      intro x hx
      have hxd : x ≠ d := fun h => hd (h ▸ hsub x hx)
      simp [hxd]

/-- The name-matching loop computes, on a duplicate-free base, the base names
that are not declared in `other`. -/
lemma removeDeclared_eq_filter (base other : List Name) (hnd : base.Nodup) :
    removeDeclared base other = base.filter (fun a => !other.contains a) :=
  removeDeclared_go base other base hnd (fun _ hx => hx)

/-- C7: `CircuitDef` construction succeeds exactly when the declared
encryption-status names and the signature's parameter names coincide as sets;
otherwise it fails eagerly with an error carrying precisely the offending
parameter names (first the signature parameters with no declared status, then
the declared statuses that are not parameters). -/
theorem circuitdef_init_signature_exact (f : FuncSig) (tf : Sample → Graph)
    (statuses : List (Name × EncryptionStatus))
    (hs : f.params.Nodup) (hd : (statuses.map Prod.fst).Nodup) :
    ((∃ cd, CircuitDef.init f tf statuses = Except.ok cd) ↔
      ((∀ p ∈ f.params, p ∈ statuses.map Prod.fst) ∧
       (∀ p ∈ statuses.map Prod.fst, p ∈ f.params))) ∧
    (CircuitDef.init f tf statuses =
        Except.error (PyError.missingStatuses
          (f.params.filter (fun a => !(statuses.map Prod.fst).contains a)) f.name) ∨
     CircuitDef.init f tf statuses =
        Except.error (PyError.extraStatuses
          ((statuses.map Prod.fst).filter (fun a => !f.params.contains a)) f.name) ∨
     (∃ cd, CircuitDef.init f tf statuses = Except.ok cd)) := by
  have hm := removeDeclared_eq_filter f.params (statuses.map Prod.fst) hs
  have ha := removeDeclared_eq_filter (statuses.map Prod.fst) f.params hd
  have hmiss_iff : removeDeclared f.params (statuses.map Prod.fst) = [] ↔
      (∀ p ∈ f.params, p ∈ statuses.map Prod.fst) := by
    rw [hm, List.filter_eq_nil_iff]
    constructor
    · intro h p hp
      simpa using h p hp
    · intro h p hp
      simpa using h p hp
  have hadd_iff : removeDeclared (statuses.map Prod.fst) f.params = [] ↔
      (∀ p ∈ statuses.map Prod.fst, p ∈ f.params) := by
    rw [ha, List.filter_eq_nil_iff]
    constructor
    · intro h p hp
      simpa using h p hp
    · intro h p hp
      simpa using h p hp
  simp only [CircuitDef.init]
  by_cases h1 : removeDeclared f.params (statuses.map Prod.fst) = []
  · rw [if_neg (by simpa using h1)]
    by_cases h2 : removeDeclared (statuses.map Prod.fst) f.params = []
    · rw [if_neg (by simpa using h2)]
      constructor
      · constructor
        · intro _
          exact ⟨hmiss_iff.mp h1, hadd_iff.mp h2⟩
        · intro _
          exact ⟨_, rfl⟩
      · exact Or.inr (Or.inr ⟨_, rfl⟩)
    · rw [if_pos (by simpa using h2)]
      constructor
      · constructor
        · rintro ⟨cd, hcd⟩
          cases hcd
        · rintro ⟨_, hall⟩
          exact absurd (hadd_iff.mpr hall) h2
      · exact Or.inr (Or.inl (by rw [ha]))
  · rw [if_pos (by simpa using h1)]
    constructor
    · constructor
      · rintro ⟨cd, hcd⟩
        cases hcd
      · rintro ⟨hall, _⟩
        exact absurd (hmiss_iff.mpr hall) h1
    · exact Or.inl (by rw [hm])

/-- A concrete tracing function for the C7 witness. -/
def witnessTrace : Sample → Graph := fun _ => ⟨[.input 0, .mul 0 0], [none, none]⟩

/-- Witness for C7: a matching declaration (`x` encrypted, for a
one-parameter function `square(x)`) constructs successfully. -/
theorem circuitdef_init_signature_exact_witness :
    ((⟨"square", ["x"]⟩ : FuncSig).params.Nodup ∧
      ([("x", EncryptionStatus.encrypted)].map Prod.fst).Nodup) ∧
    ((∃ cd, CircuitDef.init ⟨"square", ["x"]⟩ witnessTrace
        [("x", EncryptionStatus.encrypted)] = Except.ok cd) ↔
      ((∀ p ∈ (⟨"square", ["x"]⟩ : FuncSig).params,
          p ∈ [("x", EncryptionStatus.encrypted)].map Prod.fst) ∧
       (∀ p ∈ [("x", EncryptionStatus.encrypted)].map Prod.fst,
          p ∈ (⟨"square", ["x"]⟩ : FuncSig).params))) :=
  ⟨⟨by decide, by decide⟩,
   (circuitdef_init_signature_exact ⟨"square", ["x"]⟩ witnessTrace
      [("x", EncryptionStatus.encrypted)] (by decide) (by decide)).1⟩

/-! ## Determinism of bounds measurement and bit-width update (C9) -/

/-- Componentwise min/max merging of bounds is associative. -/
lemma mergeBounds_assoc (a : List (Int × Int)) :
    ∀ b c, mergeBounds (mergeBounds a b) c = mergeBounds a (mergeBounds b c) := by
  induction a with
  | nil => intro b c; simp [mergeBounds]
  | cons x xs ih =>
    intro b c
    cases b with
    | nil => simp [mergeBounds]
    | cons y ys =>
      cases c with
      | nil => simp [mergeBounds]
      | cons z zs =>
        simp only [mergeBounds, List.zipWith_cons_cons] at ih ⊢
        rw [min_assoc, max_assoc, ih]

/-- Componentwise min/max merging of bounds is idempotent. -/
lemma mergeBounds_self (a : List (Int × Int)) : mergeBounds a a = a := by
  induction a with
  | nil => rfl
  | cons x xs ih =>
    simp only [mergeBounds, List.zipWith_cons_cons] at ih ⊢
    rw [min_self, max_self, ih]

/-- A merge with `b` pulls out of the running-bounds fold. -/
lemma foldl_mergeBounds_out (g : Graph) (l : List Sample) :
    ∀ b c, l.foldl (fun acc t => mergeBounds acc (g.pointBounds t)) (mergeBounds b c) =
      mergeBounds b (l.foldl (fun acc t => mergeBounds acc (g.pointBounds t)) c) := by
  induction l with
  | nil => intro b c; rfl
  | cons t ts ih =>
    intro b c
    simp only [List.foldl_cons]
    rw [mergeBounds_assoc, ih]

/-- Measuring bounds over a duplicated inputset gives the bounds of the
inputset itself: min/max absorb repeated samples. -/
lemma measureBounds_self_append (g : Graph) (x0 : Sample) (xs : List Sample) :
    g.measureBounds ((x0 :: xs) ++ (x0 :: xs)) = g.measureBounds (x0 :: xs) := by
  simp only [List.cons_append, Graph.measureBounds]
  rw [List.foldl_append]
  simp only [List.foldl_cons]
  rw [foldl_mergeBounds_out]
  exact mergeBounds_self _

/-- Updating a graph with bounds does not change the node arena, so bounds
measured afterwards coincide with bounds measured on the original graph. -/
lemma measureBounds_update (g : Graph) (b : List (Int × Int)) (l : List Sample) :
    (g.updateWithBounds b).measureBounds l = g.measureBounds l := rfl

/-- A fresh evaluation (no graph, empty accumulated inputset, all sample
arities correct) traces the first sample and assigns bit-widths from the
bounds over the passed inputset. -/
lemma evaluate_fresh (cd : CircuitDefState) (x0 : Sample) (xs : List Sample)
    (action : Name) (cfg : Configuration)
    (hd : cd.isDirect = false) (hg : cd.graph = none) (hin : cd.inputset = [])
    (hgood : ∀ s ∈ x0 :: xs, sampleArity s = cd.params.length) :
    cd.evaluate action (some (x0 :: xs)) cfg =
      ⟨{ cd with
          inputset := x0 :: xs,
          graph := some ((cd.traceFn x0).updateWithBounds
            ((cd.traceFn x0).measureBounds (x0 :: xs))) }, none⟩ := by
  simp only [CircuitDefState.evaluate, hd]
  rw [extendLoop_ok _ _ _ _ _ (fun s hsmem => hgood s hsmem)]
  simp [hin, hg, finishEval]

/-- An evaluation on a circuit that already has a graph re-measures bounds on
the extended accumulated inputset and re-assigns the bit-widths. -/
lemma evaluate_existing (cd : CircuitDefState) (xs : List Sample) (g : Graph)
    (action : Name) (cfg : Configuration)
    (hd : cd.isDirect = false) (hg : cd.graph = some g)
    (hgood : ∀ s ∈ xs, sampleArity s = cd.params.length) :
    cd.evaluate action (some xs) cfg =
      ⟨{ cd with
          inputset := cd.inputset ++ xs,
          graph := some (g.updateWithBounds
            (g.measureBounds (cd.inputset ++ xs))) }, none⟩ := by
  simp only [CircuitDefState.evaluate, hd]
  rw [extendLoop_ok _ _ _ _ _ hgood]
  simp [hg, finishEval]

/-- C9: evaluating (compiling) the same fresh `CircuitDef` twice with the
same inputset succeeds both times and assigns identical bit-widths on every
graph node — the bounds-measurement plus bit-width-update step is a
deterministic function of the graph and the accumulated samples, and the
min/max bounds absorb the duplicated samples of the second run. -/
theorem evaluate_twice_same_bitwidths (cd : CircuitDefState) (xs : List Sample)
    (action : Name) (cfg : Configuration)
    (hd : cd.isDirect = false) (hg : cd.graph = none) (hin : cd.inputset = [])
    (hne : xs ≠ []) (hgood : ∀ s ∈ xs, sampleArity s = cd.params.length) :
    (cd.evaluate action (some xs) cfg).err = none ∧
    ((cd.evaluate action (some xs) cfg).state.evaluate action (some xs) cfg).err = none ∧
    ((cd.evaluate action (some xs) cfg).state.evaluate action (some xs) cfg).state.graph.map
        Graph.widths =
      (cd.evaluate action (some xs) cfg).state.graph.map Graph.widths := by
  cases xs with
  | nil => exact absurd rfl hne
  | cons x0 xs' =>
    rw [evaluate_fresh cd x0 xs' action cfg hd hg hin hgood]
    set g0 := cd.traceFn x0 with hg0
    set B := g0.measureBounds (x0 :: xs') with hB
    set st1 : CircuitDefState :=
      { cd with
        inputset := x0 :: xs',
        graph := some (g0.updateWithBounds B) } with hst1
    have hparams : st1.params = cd.params := rfl
    have hd1 : st1.isDirect = false := hd
    have hg1 : st1.graph = some (g0.updateWithBounds B) := rfl
    rw [evaluate_existing st1 (x0 :: xs') (g0.updateWithBounds B) action cfg hd1 hg1
      (by rw [hparams]; exact hgood)]
    refine ⟨rfl, rfl, ?_⟩
    have hin1 : st1.inputset = x0 :: xs' := rfl
    have hmb : (g0.updateWithBounds B).measureBounds (st1.inputset ++ (x0 :: xs')) = B := by
      rw [hin1, measureBounds_update, measureBounds_self_append, hB]
    rw [hmb]
    simp [Graph.updateWithBounds]

/-- Witness for C9: compiling the concrete square circuit twice over the
inputset `[3, -2]` succeeds and yields the same per-node bit-widths. -/
theorem evaluate_twice_same_bitwidths_witness :
    (squareCircuit.isDirect = false ∧ squareCircuit.graph = none ∧
      squareCircuit.inputset = [] ∧
      ([Sample.scalar 3, Sample.scalar (-2)] ≠ ([] : List Sample)) ∧
      (∀ s ∈ [Sample.scalar 3, Sample.scalar (-2)],
        sampleArity s = squareCircuit.params.length)) ∧
    ((squareCircuit.evaluate "Compiling" (some [Sample.scalar 3, Sample.scalar (-2)])
        defaultConfig).err = none ∧
      ((squareCircuit.evaluate "Compiling" (some [Sample.scalar 3, Sample.scalar (-2)])
          defaultConfig).state.evaluate "Compiling"
          (some [Sample.scalar 3, Sample.scalar (-2)]) defaultConfig).err = none ∧
      ((squareCircuit.evaluate "Compiling" (some [Sample.scalar 3, Sample.scalar (-2)])
          defaultConfig).state.evaluate "Compiling"
          (some [Sample.scalar 3, Sample.scalar (-2)]) defaultConfig).state.graph.map
          Graph.widths =
        (squareCircuit.evaluate "Compiling" (some [Sample.scalar 3, Sample.scalar (-2)])
          defaultConfig).state.graph.map Graph.widths) :=
  ⟨⟨rfl, rfl, rfl, by decide, by decide⟩,
   evaluate_twice_same_bitwidths squareCircuit [Sample.scalar 3, Sample.scalar (-2)]
     "Compiling" defaultConfig rfl rfl rfl (by decide) (by decide)⟩

end Concrete
